import Mathlib

/-!
Shallow embedding of the page fragmentation engine of the `schemati`
repository (`src/backend/documents/fragmenter.py`,
`src/backend/documents/document.py`, `src/backend/documents/factory.py`,
`src/backend/config.py`).

Conventions of the embedding:
* Python `float` arithmetic is modelled by exact rationals (`ℚ`); the
  algorithms combine integer pixel coordinates with small ratios, and the
  specification describes the arithmetic as real-valued.
* Python `int(x)` (truncation toward zero) is `pyInt`.
* Python exceptions (`ValueError` from `range(..., 0)`, `ZeroDivisionError`,
  `AttributeError` from a missing config field) are modelled by
  `Except Unit` / `Except.error`.
* A decoded OpenCV image is modelled by its dimensions together with the
  single-channel luminance of each pixel (`Image.pix row col`); the
  BGR-to-gray conversion performed by `_calculate_complexity` is absorbed
  into this view.  JPEG encoding of a tile is modelled as keeping the tile's
  pixel matrix (`cv2.imencode` succeeds on every nonempty tile that the
  algorithms reach).
* The loop bodies of `_create_grid_tiles` and `_create_fixed_size_tiles`
  are factored out as `grid_tile_step` / `fixed_tile_step`, returning
  `none` exactly when the body executes `continue`.
-/

namespace Schemati

/-- Python `int(x)`: truncation toward zero of an exact rational. -/
def pyInt (q : ℚ) : ℤ := if 0 ≤ q then ⌊q⌋ else -⌊-q⌋

/-- A decoded page image: `width`/`height` as reported by `image.shape[:2]`,
and the luminance value of each pixel (row-major indexing `pix row col`). -/
structure Image where
  width : ℕ
  height : ℕ
  pix : ℕ → ℕ → ℕ

/-- `PageFragment` from `src/backend/documents/document.py`: a bounding box
`[x1, y1, x2, y2]` and the fragment's own copy of the tile content (the
pixel matrix that was JPEG-encoded). -/
structure Fragment where
  bbox : List ℤ
  content : List (List ℕ)

/-- The numpy slice `image[y1:y2, x1:x2]` (used only with `0 ≤ y1`,
`0 ≤ x1`): a matrix of `(y2-y1) × (x2-x1)` luminance values. -/
def extractRegion (img : Image) (x1 y1 x2 y2 : ℤ) : List (List ℕ) :=
  (List.range (y2 - y1).toNat).map (fun i =>
    (List.range (x2 - x1).toNat).map (fun j =>
      img.pix (y1.toNat + i) (x1.toNat + j)))

/-- Total number of entries of a pixel matrix (`ndarray.size` up to the
constant channel factor, which does not affect the `== 0` tests). -/
def regionSize (rows : List (List ℕ)) : ℕ :=
  (rows.map List.length).sum

/-- `Fragmenter._calculate_complexity`: fraction of pixels whose luminance is
strictly below 240; `0.0` for a null (`none`) or zero-size region. -/
def calculate_complexity (region : Option (List (List ℕ))) : ℚ :=
  match region with
  | none => 0
  | some rows =>
    if regionSize rows = 0 then 0
    else
      let nonWhite : ℕ :=
        (rows.map (fun r => r.countP (fun p => decide (p < 240)))).sum
      (nonWhite : ℚ) / (regionSize rows : ℚ)

/-- The tile bounds computed for grid cell `(row, col)` in
`Fragmenter._create_grid_tiles` (lines 99-119), including the forcing of the
last column / last row to the image edge. Returns `(x1, y1, x2, y2)`. -/
def gridTileBounds (width height nh nv : ℕ) (overlap : ℚ) (row col : ℕ) :
    ℤ × ℤ × ℤ × ℤ :=
  let bw : ℚ := (width : ℚ) / (nh : ℚ)
  let bh : ℚ := (height : ℚ) / (nv : ℚ)
  let ow : ℚ := bw * overlap
  let oh : ℚ := bh * overlap
  let x1 : ℤ := max 0 (pyInt ((col : ℚ) * bw - ow))
  let y1 : ℤ := max 0 (pyInt ((row : ℚ) * bh - oh))
  let x2 : ℤ := if col = nh - 1 then (width : ℤ)
                else min (width : ℤ) (pyInt (((col : ℚ) + 1) * bw + ow))
  let y2 : ℤ := if row = nv - 1 then (height : ℤ)
                else min (height : ℤ) (pyInt (((row : ℚ) + 1) * bh + oh))
  (x1, y1, x2, y2)

/-- Body of the grid-mode double loop (lines 110-149): `none` models
`continue` (empty tile, or complexity below a positive threshold); otherwise
the constructed `PageFragment`. -/
def grid_tile_step (img : Image) (nh nv : ℕ) (overlap threshold : ℚ)
    (row col : ℕ) : Option Fragment :=
  let b := gridTileBounds img.width img.height nh nv overlap row col
  let tile := extractRegion img b.1 b.2.1 b.2.2.1 b.2.2.2
  if regionSize tile = 0 then none
  else if 0 < threshold ∧ calculate_complexity (some tile) < threshold then
    none
  else some { bbox := [b.1, b.2.1, b.2.2.1, b.2.2.2], content := tile }

/-- `Fragmenter._create_grid_tiles`: row-major iteration over the `nv × nh`
grid, collecting the fragments produced by `grid_tile_step`. -/
def create_grid_tiles (img : Image) (nh nv : ℕ) (overlap threshold : ℚ) :
    List Fragment :=
  (List.range nv).flatMap (fun row =>
    (List.range nh).filterMap (grid_tile_step img nh nv overlap threshold row))

/-- Number of iterations of Python `range(0, stop, step)` for `step ≥ 1`. -/
def pyRangeLen (stop step : ℕ) : ℕ := (stop + step - 1) / step

/-- Python `range(0, stop, step)` over an integer `step`: raises `ValueError`
(modelled as `Except.error`) when `step = 0`, is empty when `step < 0`, and
otherwise enumerates `0, step, 2*step, ...` strictly below `stop`. -/
def pyRangeNat (stop : ℕ) (step : ℤ) : Except Unit (List ℤ) :=
  if step = 0 then .error ()
  else if step < 0 then .ok []
  else .ok ((List.range (pyRangeLen stop step.toNat)).map
    (fun (k : ℕ) => ((k : ℤ) * step)))

/-- Body of the fixed-size-mode double loop (lines 176-212): `none` models
`continue` (undersized edge tile or low complexity, both only under a
positive threshold); otherwise the constructed `PageFragment`. -/
def fixed_tile_step (img : Image) (tw th : ℕ) (threshold : ℚ)
    (y x : ℤ) : Option Fragment :=
  let x2 : ℤ := min (x + (tw : ℤ)) (img.width : ℤ)
  let y2 : ℤ := min (y + (th : ℤ)) (img.height : ℤ)
  if 0 < threshold ∧
      (x2 - x < ((tw / 2 : ℕ) : ℤ) ∨ y2 - y < ((th / 2 : ℕ) : ℤ)) then
    none
  else
    let tile := extractRegion img x y x2 y2
    if 0 < threshold ∧ calculate_complexity (some tile) < threshold then none
    else some { bbox := [x, y, x2, y2], content := tile }

/-- `Fragmenter._create_fixed_size_tiles`: steps across the image with
`step = int(tile * (1 - overlap_ratio))` in each axis. The `y` range is
built once (so a zero vertical step always raises `ValueError`); the `x`
range is rebuilt inside the `y` loop (so a zero horizontal step only raises
when the `y` range is nonempty). -/
def create_fixed_size_tiles (img : Image) (tw th : ℕ)
    (overlap threshold : ℚ) : Except Unit (List Fragment) :=
  let stepW : ℤ := pyInt ((tw : ℚ) * (1 - overlap))
  let stepH : ℤ := pyInt ((th : ℚ) * (1 - overlap))
  match pyRangeNat img.height stepH, pyRangeNat img.width stepW with
  | .error _, _ => .error ()
  | .ok ys, .error _ => if ys.isEmpty then .ok [] else .error ()
  | .ok ys, .ok xs =>
    .ok (ys.flatMap (fun y => xs.filterMap (fixed_tile_step img tw th threshold y)))

/-- `Fragmenter.tile_page` after parameter resolution: decode the page
(`none` models a `cv2.imdecode` failure, which yields `[]` with a warning),
then dispatch on `tile_size` between grid mode and fixed-size mode. Grid
mode with a zero tile count models Python's `ZeroDivisionError` in
`width / num_tiles_horizontal`. -/
def tile_page (decoded : Option Image) (tile_size : Option (ℕ × ℕ))
    (overlap threshold : ℚ) (nh nv : ℕ) : Except Unit (List Fragment) :=
  match decoded with
  | none => .ok []
  | some img =>
    match tile_size with
    | none =>
      if nh = 0 ∨ nv = 0 then .error ()
      else .ok (create_grid_tiles img nh nv overlap threshold)
    | some (tw, th) => create_fixed_size_tiles img tw th overlap threshold

/-- `AppConfig` from `src/backend/config.py`, with exactly the fields the
class declares (the Databricks/application string fields are omitted as
they are never read by the fragmentation core and carry no numeric data).
Note that `fragment_num_tiles_horizontal` and `fragment_num_tiles_vertical`
are *not* declared fields. -/
structure AppConfig where
  image_dpi : ℕ
  image_max_width : ℕ
  image_max_height : ℕ
  fragment_tile_width : ℕ
  fragment_tile_height : ℕ
  fragment_overlap_ratio : ℚ
  fragment_complexity_threshold : ℚ
  fragment_dynamic_enabled : Bool

/-- Python attribute access `getattr(config, name)` for the integer-typed
attributes: pydantic models expose exactly their declared fields, so a name
that is not a declared field of `AppConfig` raises `AttributeError`
(modelled as `Except.error`). -/
def getattr_nat (c : AppConfig) (a : String) : Except Unit ℕ :=
  if a = "image_dpi" then .ok c.image_dpi
  else if a = "image_max_width" then .ok c.image_max_width
  else if a = "image_max_height" then .ok c.image_max_height
  else if a = "fragment_tile_width" then .ok c.fragment_tile_width
  else if a = "fragment_tile_height" then .ok c.fragment_tile_height
  else .error ()

/-- The fallback `if arg is None: arg = config.<attr>` at the top of
`tile_page` (lines 43-46). -/
def resolve_nat_param (supplied : Option ℕ) (c : AppConfig) (attr : String) :
    Except Unit ℕ :=
  match supplied with
  | some v => .ok v
  | none => getattr_nat c attr

/-- `Fragmenter.tile_page` including its parameter-resolution prologue
(lines 40-52): missing num-tile arguments are read from the config
attributes `fragment_num_tiles_horizontal` / `fragment_num_tiles_vertical`,
and missing overlap/threshold arguments fall back to the corresponding
declared config fields. Decoding happens after resolution. -/
def tile_page_entry (c : AppConfig) (decoded : Option Image)
    (tile_size : Option (ℕ × ℕ)) (overlapArg thresholdArg : Option ℚ)
    (nhArg nvArg : Option ℕ) : Except Unit (List Fragment) := do
  let nh ← resolve_nat_param nhArg c "fragment_num_tiles_horizontal"
  let nv ← resolve_nat_param nvArg c "fragment_num_tiles_vertical"
  let ov := overlapArg.getD c.fragment_overlap_ratio
  let thr := thresholdArg.getD c.fragment_complexity_threshold
  tile_page decoded tile_size ov thr nh nv

/-- The mutable state of a `Page` object
(`src/backend/documents/document.py`). -/
structure PageM where
  page_number : ℕ
  content : List ℕ
  fragments : List Fragment

/-- `Fragmenter.tile_page` viewed as a state transformer on its `page`
argument: the function body only reads `page.content` (and `page.page_number`
for logging) and assigns no attribute of `page`, so the translated
state-passing form returns the page untouched next to the fragment list.
`decode` stands for the external `cv2.imdecode`. -/
def tile_page_on (decode : List ℕ → Option Image) (p : PageM)
    (tile_size : Option (ℕ × ℕ)) (overlap threshold : ℚ) (nh nv : ℕ) :
    PageM × Except Unit (List Fragment) :=
  (p, tile_page (decode p.content) tile_size overlap threshold nh nv)

/-- `Page.fragment` (document.py lines 38-66) with the num-tile parameters
already resolved: it runs `Fragmenter.tile_page` on the page's own content
and assigns the returned list to `self.fragments` (replacing any previous
value); if `tile_page` raises, the assignment is never reached and the page
is left as it was. -/
def page_fragment (decode : List ℕ → Option Image) (p : PageM)
    (tile_size : Option (ℕ × ℕ)) (overlap threshold : ℚ) (nh nv : ℕ) :
    Except Unit (PageM × List Fragment) :=
  match tile_page (decode p.content) tile_size overlap threshold nh nv with
  | .ok frags => .ok ({ p with fragments := frags }, frags)
  | .error e => .error e

/-- Bounding-box accessors: `bbox = [x1, y1, x2, y2]`. -/
def fragX1 (f : Fragment) : ℤ := f.bbox.getD 0 0

def fragY1 (f : Fragment) : ℤ := f.bbox.getD 1 0

def fragX2 (f : Fragment) : ℤ := f.bbox.getD 2 0

def fragY2 (f : Fragment) : ℤ := f.bbox.getD 3 0

/-- Number of pixels of a region whose luminance is strictly below 240
(`np.sum(gray < 240)`). -/
def nonWhiteCount (rows : List (List ℕ)) : ℕ :=
  (rows.map (fun r => r.countP (fun p => decide (p < 240)))).sum

/-- A 6×3 test image, white except for dark pixels at `(row 2, cols 1, 4,
5)`. -/
def cimg : Image :=
  ⟨6, 3, fun r c => if r = 2 ∧ (c = 1 ∨ c = 4 ∨ c = 5) then 0 else 255⟩

end Schemati

namespace Schemati

/-! ### Generic helpers -/

theorem pyInt_of_nonneg {q : ℚ} (h : 0 ≤ q) : pyInt q = ⌊q⌋ := by
  simp [pyInt, h]

theorem pyInt_nonpos {q : ℚ} (h : q ≤ 0) : pyInt q ≤ 0 := by
  unfold pyInt
  split
  · have hq : q = 0 := le_antisymm h (by assumption)
    simp [hq]
  · have : (0 : ℤ) ≤ ⌊-q⌋ := by
      rw [Int.le_floor]
      push_cast
      linarith
    omega

theorem max_zero_pyInt (q : ℚ) : max 0 (pyInt q) = max 0 ⌊q⌋ := by
  rcases le_or_lt 0 q with h | h
  · rw [pyInt_of_nonneg h]
  · have h1 : pyInt q ≤ 0 := pyInt_nonpos h.le
    have h2 : ⌊q⌋ ≤ 0 := by
      have := Int.floor_le_floor h.le
      simpa using this
    omega

/-! ### C4: complexity score -/

theorem calculate_complexity_some (rows : List (List ℕ)) :
    calculate_complexity (some rows) =
      if regionSize rows = 0 then 0
      else (nonWhiteCount rows : ℚ) / (regionSize rows : ℚ) := rfl

theorem nonWhiteCount_le (rows : List (List ℕ)) :
    nonWhiteCount rows ≤ regionSize rows := by
  unfold nonWhiteCount regionSize
  apply List.sum_le_sum
  intro r _
  exact List.countP_le_length _

/-- Claim C4: the complexity score of a region is the count of pixels with
luminance strictly below 240 divided by the total pixel count, lies in
`[0, 1]`, and is exactly `0` for a null or zero-size region.  (The function
is total in the embedding, matching "never raises".) -/
theorem complexity_score_spec (rows : List (List ℕ)) :
    calculate_complexity none = 0 ∧
    0 ≤ calculate_complexity (some rows) ∧
    calculate_complexity (some rows) ≤ 1 ∧
    (regionSize rows = 0 → calculate_complexity (some rows) = 0) ∧
    (0 < regionSize rows →
      calculate_complexity (some rows) * (regionSize rows : ℚ) =
        (nonWhiteCount rows : ℚ)) := by
  refine ⟨rfl, ?_, ?_, ?_, ?_⟩
  · rw [calculate_complexity_some]
    split_ifs
    · norm_num
    · positivity
  · rw [calculate_complexity_some]
    split_ifs with h
    · norm_num
    · have hpos : 0 < regionSize rows := Nat.pos_of_ne_zero h
      rw [div_le_one (by exact_mod_cast hpos)]
      exact_mod_cast nonWhiteCount_le rows
  · intro h
    rw [calculate_complexity_some, if_pos h]
  · intro h
    have hne : (regionSize rows : ℚ) ≠ 0 := by
      exact_mod_cast Nat.pos_iff_ne_zero.mp h
    rw [calculate_complexity_some, if_neg (Nat.pos_iff_ne_zero.mp h)]
    exact div_mul_cancel₀ _ hne

/-- Witness for C4 at a concrete region: two pixels, one dark. -/
theorem complexity_score_spec_witness :
    calculate_complexity (some [[0, 255]]) * ((2 : ℕ) : ℚ) =
      ((1 : ℕ) : ℚ) := by
  have h := (complexity_score_spec [[0, 255]]).2.2.2.2 (by decide)
  simpa [regionSize, nonWhiteCount] using h

end Schemati

namespace Schemati

/-! ### C8: image resize -/

/-- Claim C9 is a code bug: `tile_page` falls back to
`config.fragment_num_tiles_horizontal` / `fragment_num_tiles_vertical`, but
`AppConfig` declares no such fields, so every call that omits the num-tile
arguments raises `AttributeError` instead of proceeding in grid mode — for
every config instance, page, tile size and overlap/threshold override. -/
theorem num_tiles_fallback_raises (c : AppConfig) (decoded : Option Image)
    (tile_size : Option (ℕ × ℕ)) (overlapArg thresholdArg : Option ℚ) :
    tile_page_entry c decoded tile_size overlapArg thresholdArg none none =
      .error () := rfl

end Schemati

namespace Schemati

/-! ### C10: tile_page mutates nothing; Page.fragment replaces -/

/-- Claim C10: `tile_page` never mutates its input page — its state-passing
translation returns the page unchanged — and `Page.fragment` stores exactly
the freshly built list in `page.fragments` (replacing, not appending to,
any prior value) while leaving `content` and `page_number` intact. -/
theorem tile_page_frame (decode : List ℕ → Option Image) (p : PageM)
    (tile_size : Option (ℕ × ℕ)) (overlap threshold : ℚ) (nh nv : ℕ)
    (pg : PageM) (fr : List Fragment)
    (h : page_fragment decode p tile_size overlap threshold nh nv =
      .ok (pg, fr)) :
    (tile_page_on decode p tile_size overlap threshold nh nv).1 = p ∧
    pg.content = p.content ∧ pg.page_number = p.page_number ∧
    pg.fragments = fr ∧
    tile_page (decode p.content) tile_size overlap threshold nh nv =
      .ok fr := by
  refine ⟨rfl, ?_⟩
  unfold page_fragment at h
  rcases he : tile_page (decode p.content) tile_size overlap threshold nh nv with
    e | frags
  · rw [he] at h
    exact absurd h (by simp)
  · rw [he] at h
    simp only [Except.ok.injEq, Prod.mk.injEq] at h
    obtain ⟨hpg, hfr⟩ := h
    subst hpg hfr
    exact ⟨rfl, rfl, rfl, rfl⟩

/-- Witness for C10: an undecodable one-page document, fragmented with
grid parameters; the page keeps its content and receives the empty list. -/
theorem tile_page_frame_witness :
    (tile_page_on (fun _ => none) ⟨1, [7], []⟩ none 0 0 2 2).1 = ⟨1, [7], []⟩ ∧
    (⟨1, [7], []⟩ : PageM).content = [7] ∧
    (⟨1, [7], []⟩ : PageM).page_number = 1 ∧
    (⟨1, [7], []⟩ : PageM).fragments = ([] : List Fragment) ∧
    tile_page ((fun (_ : List ℕ) => (none : Option Image)) [7]) none 0 0 2 2 =
      .ok ([] : List Fragment) := by
  have h := tile_page_frame (fun _ => none) ⟨1, [7], []⟩ none 0 0 2 2
    ⟨1, [7], []⟩ [] rfl
  simpa using h

end Schemati

namespace Schemati

/-! ### Grid-mode geometry lemmas -/

theorem gridTileBounds_x1 (W H nh nv : ℕ) (ov : ℚ) (row col : ℕ) :
    (gridTileBounds W H nh nv ov row col).1 =
      max 0 (pyInt ((col : ℚ) * ((W : ℚ) / (nh : ℚ)) -
        ((W : ℚ) / (nh : ℚ)) * ov)) := rfl

theorem gridTileBounds_y1 (W H nh nv : ℕ) (ov : ℚ) (row col : ℕ) :
    (gridTileBounds W H nh nv ov row col).2.1 =
      max 0 (pyInt ((row : ℚ) * ((H : ℚ) / (nv : ℚ)) -
        ((H : ℚ) / (nv : ℚ)) * ov)) := rfl

theorem gridTileBounds_x2 (W H nh nv : ℕ) (ov : ℚ) (row col : ℕ) :
    (gridTileBounds W H nh nv ov row col).2.2.1 =
      (if col = nh - 1 then (W : ℤ)
       else min (W : ℤ) (pyInt (((col : ℚ) + 1) * ((W : ℚ) / (nh : ℚ)) +
         ((W : ℚ) / (nh : ℚ)) * ov))) := rfl

theorem gridTileBounds_y2 (W H nh nv : ℕ) (ov : ℚ) (row col : ℕ) :
    (gridTileBounds W H nh nv ov row col).2.2.2 =
      (if row = nv - 1 then (H : ℤ)
       else min (H : ℤ) (pyInt (((row : ℚ) + 1) * ((H : ℚ) / (nv : ℚ)) +
         ((H : ℚ) / (nv : ℚ)) * ov))) := rfl

theorem gridTileBounds_x1_nonneg (W H nh nv : ℕ) (ov : ℚ) (row col : ℕ) :
    0 ≤ (gridTileBounds W H nh nv ov row col).1 := by
  rw [gridTileBounds_x1]
  exact le_max_left _ _

theorem gridTileBounds_y1_nonneg (W H nh nv : ℕ) (ov : ℚ) (row col : ℕ) :
    0 ≤ (gridTileBounds W H nh nv ov row col).2.1 := by
  rw [gridTileBounds_y1]
  exact le_max_left _ _

theorem gridTileBounds_x2_le (W H nh nv : ℕ) (ov : ℚ) (row col : ℕ) :
    (gridTileBounds W H nh nv ov row col).2.2.1 ≤ (W : ℤ) := by
  rw [gridTileBounds_x2]
  split
  · exact le_refl _
  · exact min_le_left _ _

theorem gridTileBounds_y2_le (W H nh nv : ℕ) (ov : ℚ) (row col : ℕ) :
    (gridTileBounds W H nh nv ov row col).2.2.2 ≤ (H : ℤ) := by
  rw [gridTileBounds_y2]
  split
  · exact le_refl _
  · exact min_le_left _ _

/-- 1-D core of the nonemptiness of grid cells: as long as the tile count
does not exceed the dimension (so the base tile size is at least one
pixel), the computed lower bound is strictly below the computed upper
bound. -/
theorem grid_lower_lt_upper (W nh : ℕ) (ov : ℚ) (col : ℕ)
    (hnh : 1 ≤ nh) (hW : nh ≤ W) (hov : 0 ≤ ov) (hcol : col < nh) :
    max 0 (pyInt ((col : ℚ) * ((W : ℚ) / (nh : ℚ)) - ((W : ℚ) / (nh : ℚ)) * ov)) <
      (if col = nh - 1 then (W : ℤ)
       else min (W : ℤ) (pyInt (((col : ℚ) + 1) * ((W : ℚ) / (nh : ℚ)) +
         ((W : ℚ) / (nh : ℚ)) * ov))) := by
  have hnhQ : (0 : ℚ) < (nh : ℚ) := by exact_mod_cast hnh
  have hbw1 : (1 : ℚ) ≤ (W : ℚ) / (nh : ℚ) := by
    rw [le_div_iff₀ hnhQ, one_mul]
    exact_mod_cast hW
  have hbw0 : (0 : ℚ) ≤ (W : ℚ) / (nh : ℚ) := le_trans zero_le_one hbw1
  have hnhbw : (nh : ℚ) * ((W : ℚ) / (nh : ℚ)) = (W : ℚ) := by
    field_simp
  have hx1le : max 0 (pyInt ((col : ℚ) * ((W : ℚ) / (nh : ℚ)) -
      ((W : ℚ) / (nh : ℚ)) * ov)) ≤ ⌊(col : ℚ) * ((W : ℚ) / (nh : ℚ))⌋ := by
    rw [max_zero_pyInt]
    have h1 : ⌊(col : ℚ) * ((W : ℚ) / (nh : ℚ)) - ((W : ℚ) / (nh : ℚ)) * ov⌋ ≤
        ⌊(col : ℚ) * ((W : ℚ) / (nh : ℚ))⌋ := by
      apply Int.floor_le_floor
      nlinarith [mul_nonneg hbw0 hov]
    have h2 : (0 : ℤ) ≤ ⌊(col : ℚ) * ((W : ℚ) / (nh : ℚ))⌋ :=
      Int.floor_nonneg.mpr (by positivity)
    omega
  split
  · rename_i hlast
    have hcolle : (col : ℚ) ≤ (nh : ℚ) - 1 := by
      have : (col : ℕ) ≤ nh - 1 := by omega
      have h := Nat.cast_le (α := ℚ) |>.mpr this
      rw [Nat.cast_sub hnh] at h
      simpa using h
    have hfl : ⌊(col : ℚ) * ((W : ℚ) / (nh : ℚ))⌋ < (W : ℤ) := by
      rw [Int.floor_lt]
      push_cast
      nlinarith
    omega
  · rename_i hne
    have hcol2 : col + 2 ≤ nh := by omega
    have hcolle : (col : ℚ) + 2 ≤ (nh : ℚ) := by exact_mod_cast hcol2
    have harg0 : (0 : ℚ) ≤ ((col : ℚ) + 1) * ((W : ℚ) / (nh : ℚ)) +
        ((W : ℚ) / (nh : ℚ)) * ov := by positivity
    rw [pyInt_of_nonneg harg0]
    apply lt_min
    · have hfl : ⌊(col : ℚ) * ((W : ℚ) / (nh : ℚ))⌋ < (W : ℤ) := by
        rw [Int.floor_lt]
        push_cast
        nlinarith
      omega
    · have hstep : (col : ℚ) * ((W : ℚ) / (nh : ℚ)) + 1 ≤
          ((col : ℚ) + 1) * ((W : ℚ) / (nh : ℚ)) +
            ((W : ℚ) / (nh : ℚ)) * ov := by
        nlinarith [mul_nonneg hbw0 hov]
      have h1 : ⌊(col : ℚ) * ((W : ℚ) / (nh : ℚ)) + 1⌋ =
          ⌊(col : ℚ) * ((W : ℚ) / (nh : ℚ))⌋ + 1 := by
        exact_mod_cast Int.floor_add_int ((col : ℚ) * ((W : ℚ) / (nh : ℚ))) 1
      have h2 : ⌊(col : ℚ) * ((W : ℚ) / (nh : ℚ)) + 1⌋ ≤
          ⌊((col : ℚ) + 1) * ((W : ℚ) / (nh : ℚ)) +
            ((W : ℚ) / (nh : ℚ)) * ov⌋ := Int.floor_le_floor hstep
      omega

end Schemati

namespace Schemati

theorem regionSize_extractRegion (img : Image) (x1 y1 x2 y2 : ℤ) :
    regionSize (extractRegion img x1 y1 x2 y2) =
      (y2 - y1).toNat * (x2 - x1).toNat := by
  unfold regionSize extractRegion
  rw [List.map_map]
  have : (List.length ∘ fun i =>
      (List.range (x2 - x1).toNat).map (fun j => img.pix (y1.toNat + i) (x1.toNat + j))) =
      fun _ => (x2 - x1).toNat := by
    funext i
    simp
  rw [this, List.map_const', List.sum_replicate, smul_eq_mul, List.length_range]

/-- For a cell inside the grid, with nonnegative overlap and tile counts not
exceeding the dimensions, the loop body produces a fragment (no skip) when
the complexity threshold is zero. -/
theorem grid_tile_step_eq (img : Image) (nh nv : ℕ) (ov : ℚ) (row col : ℕ)
    (hnh : 1 ≤ nh) (hnv : 1 ≤ nv) (hW : nh ≤ img.width) (hH : nv ≤ img.height)
    (hov : 0 ≤ ov) (hrow : row < nv) (hcol : col < nh) :
    grid_tile_step img nh nv ov 0 row col =
      some { bbox := [(gridTileBounds img.width img.height nh nv ov row col).1,
                      (gridTileBounds img.width img.height nh nv ov row col).2.1,
                      (gridTileBounds img.width img.height nh nv ov row col).2.2.1,
                      (gridTileBounds img.width img.height nh nv ov row col).2.2.2],
             content := extractRegion img
               (gridTileBounds img.width img.height nh nv ov row col).1
               (gridTileBounds img.width img.height nh nv ov row col).2.1
               (gridTileBounds img.width img.height nh nv ov row col).2.2.1
               (gridTileBounds img.width img.height nh nv ov row col).2.2.2 } := by
  have hx := grid_lower_lt_upper img.width nh ov col hnh hW hov hcol
  have hy := grid_lower_lt_upper img.height nv ov row hnv hH hov hrow
  rw [← gridTileBounds_x1 img.width img.height nh nv ov row col,
      ← gridTileBounds_x2 img.width img.height nh nv ov row col] at hx
  rw [← gridTileBounds_y1 img.width img.height nh nv ov row col,
      ← gridTileBounds_y2 img.width img.height nh nv ov row col] at hy
  unfold grid_tile_step
  rw [if_neg, if_neg]
  · simp only [not_and]
    intro h
    exact absurd h (lt_irrefl 0)
  · rw [regionSize_extractRegion]
    have h1 : 0 <
        ((gridTileBounds img.width img.height nh nv ov row col).2.2.2 -
          (gridTileBounds img.width img.height nh nv ov row col).2.1).toNat := by
      omega
    have h2 : 0 <
        ((gridTileBounds img.width img.height nh nv ov row col).2.2.1 -
          (gridTileBounds img.width img.height nh nv ov row col).1).toNat := by
      omega
    positivity

theorem length_filterMap_of_isSome {α β : Type} (l : List α) (f : α → Option β)
    (h : ∀ a ∈ l, (f a).isSome) : (l.filterMap f).length = l.length := by
  induction l with
  | nil => rfl
  | cons a t ih =>
    rcases Option.isSome_iff_exists.mp (h a (by simp)) with ⟨b, hb⟩
    simp [List.filterMap_cons, hb, ih (fun x hx => h x (by simp [hx]))]

theorem length_flatMap_const {α β : Type} (l : List α) (g : α → List β) (n : ℕ)
    (h : ∀ a ∈ l, (g a).length = n) : (l.flatMap g).length = l.length * n := by
  induction l with
  | nil => simp
  | cons a t ih =>
    rw [List.flatMap_cons, List.length_append, h a (by simp),
      ih (fun x hx => h x (by simp [hx])), List.length_cons]
    ring

theorem mem_create_grid_tiles (img : Image) (nh nv : ℕ) (ov thr : ℚ)
    (f : Fragment) (hf : f ∈ create_grid_tiles img nh nv ov thr) :
    ∃ row col, row < nv ∧ col < nh ∧
      grid_tile_step img nh nv ov thr row col = some f := by
  unfold create_grid_tiles at hf
  rcases List.mem_flatMap.mp hf with ⟨row, hrow, hmem⟩
  rcases List.mem_filterMap.mp hmem with ⟨col, hcol, hstep⟩
  exact ⟨row, col, List.mem_range.mp hrow, List.mem_range.mp hcol, hstep⟩

/-- A fragment produced by the grid-mode loop body has
`bbox = [x1, y1, x2, y2]` with `0 ≤ x1 < x2 ≤ width` and
`0 ≤ y1 < y2 ≤ height` — for arbitrary overlap and threshold. -/
theorem grid_tile_step_bbox (img : Image) (nh nv : ℕ) (ov thr : ℚ)
    (row col : ℕ) (f : Fragment)
    (h : grid_tile_step img nh nv ov thr row col = some f) :
    ∃ x1 y1 x2 y2 : ℤ, f.bbox = [x1, y1, x2, y2] ∧
      0 ≤ x1 ∧ x1 < x2 ∧ x2 ≤ (img.width : ℤ) ∧
      0 ≤ y1 ∧ y1 < y2 ∧ y2 ≤ (img.height : ℤ) := by
  simp only [grid_tile_step] at h
  split at h
  · exact absurd h (by simp)
  · rename_i hsize
    split at h
    · exact absurd h (by simp)
    · rename_i hcplx
      refine ⟨(gridTileBounds img.width img.height nh nv ov row col).1,
        (gridTileBounds img.width img.height nh nv ov row col).2.1,
        (gridTileBounds img.width img.height nh nv ov row col).2.2.1,
        (gridTileBounds img.width img.height nh nv ov row col).2.2.2,
        ?_, ?_, ?_, ?_, ?_, ?_, ?_⟩
      · rw [← Option.some_inj.mp h]
      · exact gridTileBounds_x1_nonneg _ _ _ _ _ _ _
      · rw [regionSize_extractRegion] at hsize
        by_contra hlt
        apply hsize
        have : ((gridTileBounds img.width img.height nh nv ov row col).2.2.1 -
            (gridTileBounds img.width img.height nh nv ov row col).1).toNat = 0 := by
          omega
        rw [this, Nat.mul_zero]
      · exact gridTileBounds_x2_le _ _ _ _ _ _ _
      · exact gridTileBounds_y1_nonneg _ _ _ _ _ _ _
      · rw [regionSize_extractRegion] at hsize
        by_contra hlt
        apply hsize
        have : ((gridTileBounds img.width img.height nh nv ov row col).2.2.2 -
            (gridTileBounds img.width img.height nh nv ov row col).2.1).toNat = 0 := by
          omega
        rw [this, Nat.zero_mul]
      · exact gridTileBounds_y2_le _ _ _ _ _ _ _

end Schemati

namespace Schemati

/-! ### C1: grid-mode fragment count and corner coverage -/

/-- Claim C1, amended: with the tile counts additionally bounded by the
image dimensions (`NH ≤ W`, `NV ≤ H`), grid mode with
`complexity_threshold = 0` yields exactly `NH * NV` fragments, every
fragment bbox stays inside the image, some fragment has `x1 = y1 = 0` and
some fragment has `x2 = W`, `y2 = H` (so the min/max corners over the
returned fragments are exactly `(0,0)` and `(W,H)`). -/
theorem grid_mode_count_and_corners (img : Image) (nh nv : ℕ) (ov : ℚ)
    (hnh : 1 ≤ nh) (hnv : 1 ≤ nv) (hW : nh ≤ img.width) (hH : nv ≤ img.height)
    (hov : 0 ≤ ov) :
    (create_grid_tiles img nh nv ov 0).length = nh * nv ∧
    (∀ f ∈ create_grid_tiles img nh nv ov 0,
      0 ≤ fragX1 f ∧ 0 ≤ fragY1 f ∧
      fragX2 f ≤ (img.width : ℤ) ∧ fragY2 f ≤ (img.height : ℤ)) ∧
    (∃ f ∈ create_grid_tiles img nh nv ov 0, fragX1 f = 0 ∧ fragY1 f = 0) ∧
    (∃ f ∈ create_grid_tiles img nh nv ov 0,
      fragX2 f = (img.width : ℤ) ∧ fragY2 f = (img.height : ℤ)) := by
  have hbw0 : (0 : ℚ) ≤ (img.width : ℚ) / (nh : ℚ) := by positivity
  have hbh0 : (0 : ℚ) ≤ (img.height : ℚ) / (nv : ℚ) := by positivity
  refine ⟨?_, ?_, ?_, ?_⟩
  · unfold create_grid_tiles
    rw [length_flatMap_const _ _ nh, List.length_range, Nat.mul_comm]
    intro row hrow
    rw [length_filterMap_of_isSome, List.length_range]
    intro col hcol
    rw [grid_tile_step_eq img nh nv ov row col hnh hnv hW hH hov
      (List.mem_range.mp hrow) (List.mem_range.mp hcol)]
    rfl
  · intro f hf
    rcases mem_create_grid_tiles img nh nv ov 0 f hf with ⟨row, col, _, _, hstep⟩
    rcases grid_tile_step_bbox img nh nv ov 0 row col f hstep with
      ⟨x1, y1, x2, y2, hbbox, h1, h2, h3, h4, h5, h6⟩
    simp only [fragX1, fragY1, fragX2, fragY2, hbbox, List.getD_cons_zero,
      List.getD_cons_succ]
    exact ⟨h1, h4, h3, h6⟩
  · have hs := grid_tile_step_eq img nh nv ov 0 0 hnh hnv hW hH hov
      (by omega) (by omega)
    refine ⟨_, List.mem_flatMap.mpr ⟨0, List.mem_range.mpr (by omega),
      List.mem_filterMap.mpr ⟨0, List.mem_range.mpr (by omega), hs⟩⟩, ?_, ?_⟩
    · show (gridTileBounds img.width img.height nh nv ov 0 0).1 = 0
      rw [gridTileBounds_x1]
      have h := pyInt_nonpos (q := ((0 : ℕ) : ℚ) * ((img.width : ℚ) / (nh : ℚ)) -
        ((img.width : ℚ) / (nh : ℚ)) * ov)
        (by push_cast; nlinarith [mul_nonneg hbw0 hov])
      omega
    · show (gridTileBounds img.width img.height nh nv ov 0 0).2.1 = 0
      rw [gridTileBounds_y1]
      have h := pyInt_nonpos (q := ((0 : ℕ) : ℚ) * ((img.height : ℚ) / (nv : ℚ)) -
        ((img.height : ℚ) / (nv : ℚ)) * ov)
        (by push_cast; nlinarith [mul_nonneg hbh0 hov])
      omega
  · have hs := grid_tile_step_eq img nh nv ov (nv - 1) (nh - 1) hnh hnv hW hH hov
      (by omega) (by omega)
    refine ⟨_, List.mem_flatMap.mpr ⟨nv - 1, List.mem_range.mpr (by omega),
      List.mem_filterMap.mpr ⟨nh - 1, List.mem_range.mpr (by omega), hs⟩⟩, ?_, ?_⟩
    · show (gridTileBounds img.width img.height nh nv ov (nv - 1) (nh - 1)).2.2.1 =
        (img.width : ℤ)
      rw [gridTileBounds_x2, if_pos rfl]
    · show (gridTileBounds img.width img.height nh nv ov (nv - 1) (nh - 1)).2.2.2 =
        (img.height : ℤ)
      rw [gridTileBounds_y2, if_pos rfl]

end Schemati

namespace Schemati

theorem gb2x2a : gridTileBounds 2 2 5 1 0 0 0 = (0, 0, 0, 2) := by
  norm_num [gridTileBounds, pyInt]

theorem gb2x2b : gridTileBounds 2 2 5 1 0 0 1 = (0, 0, 0, 2) := by
  norm_num [gridTileBounds, pyInt]

theorem gb2x2c : gridTileBounds 2 2 5 1 0 0 2 = (0, 0, 1, 2) := by
  norm_num [gridTileBounds, pyInt]

theorem gb2x2d : gridTileBounds 2 2 5 1 0 0 3 = (1, 0, 1, 2) := by
  norm_num [gridTileBounds, pyInt]

theorem gb2x2e : gridTileBounds 2 2 5 1 0 0 4 = (1, 0, 2, 2) := by
  norm_num [gridTileBounds, pyInt]

/-- Claim C1 as stated is false: a 2×2 image tiled `5×1` with zero overlap
and zero threshold yields only 2 fragments (three grid cells truncate to
empty slices and are skipped), not `5 * 1`. -/
theorem grid_mode_count_counterexample :
    (create_grid_tiles ⟨2, 2, fun _ _ => 255⟩ 5 1 0 0).length = 2 ∧
    (create_grid_tiles ⟨2, 2, fun _ _ => 255⟩ 5 1 0 0).length ≠ 5 * 1 := by
  have h : (create_grid_tiles ⟨2, 2, fun _ _ => 255⟩ 5 1 0 0).length = 2 := by
    simp only [create_grid_tiles, grid_tile_step, List.range_succ,
      List.range_zero, List.nil_append, List.cons_append, List.flatMap_cons,
      List.flatMap_nil, List.filterMap_cons, List.filterMap_nil,
      List.append_nil, gb2x2a, gb2x2b, gb2x2c, gb2x2d, gb2x2e]
    decide
  exact ⟨h, by omega⟩

/-- Witness for the amended C1: a white 5×4 image tiled `5×4` has exactly
`5 * 4` fragments. -/
theorem grid_mode_count_and_corners_witness :
    (create_grid_tiles ⟨5, 4, fun _ _ => 255⟩ 5 4 0 0).length = 5 * 4 :=
  (grid_mode_count_and_corners ⟨5, 4, fun _ _ => 255⟩ 5 4 0 (by decide)
    (by decide) (by decide) (by decide) (by decide)).1

end Schemati

namespace Schemati

/-! ### C2: grid cell bound formulas -/

/-- Claim C2, amended: the candidate grid-tile bounds follow the claimed
formulas with `x1`/`y1` floored as claimed, but with `x2`/`y2` also given by
*floor* (Python `int` truncation of a nonnegative value), not by the
ceiling the claim states; the last column and row are forced to the image
edges. -/
theorem grid_tile_bounds_formula (W H nh nv : ℕ) (ov : ℚ) (row col : ℕ)
    (_hnh : 1 ≤ nh) (_hnv : 1 ≤ nv) (hov : 0 ≤ ov) :
    gridTileBounds W H nh nv ov row col =
      (max 0 ⌊(col : ℚ) * ((W : ℚ) / (nh : ℚ)) - ((W : ℚ) / (nh : ℚ)) * ov⌋,
       max 0 ⌊(row : ℚ) * ((H : ℚ) / (nv : ℚ)) - ((H : ℚ) / (nv : ℚ)) * ov⌋,
       (if col = nh - 1 then (W : ℤ)
        else min (W : ℤ)
          ⌊((col : ℚ) + 1) * ((W : ℚ) / (nh : ℚ)) + ((W : ℚ) / (nh : ℚ)) * ov⌋),
       (if row = nv - 1 then (H : ℤ)
        else min (H : ℤ)
          ⌊((row : ℚ) + 1) * ((H : ℚ) / (nv : ℚ)) + ((H : ℚ) / (nv : ℚ)) * ov⌋)) := by
  have e1 := gridTileBounds_x1 W H nh nv ov row col
  have e2 := gridTileBounds_y1 W H nh nv ov row col
  have e3 := gridTileBounds_x2 W H nh nv ov row col
  have e4 := gridTileBounds_y2 W H nh nv ov row col
  have hx2 : (gridTileBounds W H nh nv ov row col).2.2.1 =
      (if col = nh - 1 then (W : ℤ)
       else min (W : ℤ)
         ⌊((col : ℚ) + 1) * ((W : ℚ) / (nh : ℚ)) + ((W : ℚ) / (nh : ℚ)) * ov⌋) := by
    rw [e3, pyInt_of_nonneg (by positivity)]
  have hy2 : (gridTileBounds W H nh nv ov row col).2.2.2 =
      (if row = nv - 1 then (H : ℤ)
       else min (H : ℤ)
         ⌊((row : ℚ) + 1) * ((H : ℚ) / (nv : ℚ)) + ((H : ℚ) / (nv : ℚ)) * ov⌋) := by
    rw [e4, pyInt_of_nonneg (by positivity)]
  have hx1 : (gridTileBounds W H nh nv ov row col).1 =
      max 0 ⌊(col : ℚ) * ((W : ℚ) / (nh : ℚ)) - ((W : ℚ) / (nh : ℚ)) * ov⌋ := by
    rw [e1, max_zero_pyInt]
  have hy1 : (gridTileBounds W H nh nv ov row col).2.1 =
      max 0 ⌊(row : ℚ) * ((H : ℚ) / (nv : ℚ)) - ((H : ℚ) / (nv : ℚ)) * ov⌋ := by
    rw [e2, max_zero_pyInt]
  exact Prod.ext hx1 (Prod.ext hy1 (Prod.ext hx2 hy2))

/-- Claim C2 as stated is false: for a 10-wide image with 3 columns, no
overlap, the first cell's `x2` computed by the code is `int(10/3) = 3`,
while the claimed `min(width, ceil((col+1)*base_w + base_w*overlap))`
is `4`. -/
theorem grid_tile_bounds_ceil_counterexample :
    (gridTileBounds 10 10 3 1 0 0 0).2.2.1 = 3 ∧
    min ((10 : ℕ) : ℤ)
      ⌈(((0 : ℕ) : ℚ) + 1) * (((10 : ℕ) : ℚ) / ((3 : ℕ) : ℚ)) +
        (((10 : ℕ) : ℚ) / ((3 : ℕ) : ℚ)) * 0⌉ = 4 := by
  constructor
  · norm_num [gridTileBounds, pyInt]
  · have harg : (((0 : ℕ) : ℚ) + 1) * (((10 : ℕ) : ℚ) / ((3 : ℕ) : ℚ)) +
        (((10 : ℕ) : ℚ) / ((3 : ℕ) : ℚ)) * 0 = (10 : ℚ) / 3 := by
      push_cast
      ring
    rw [harg]
    have hceil : ⌈(10 : ℚ) / 3⌉ = 4 := by
      rw [Int.ceil_eq_iff]
      norm_num
    rw [hceil]
    norm_num

/-- Witness for the amended C2 at a concrete non-edge cell: `x2` of the
first cell of a 10-wide, 3-column grid is `min(10, ⌊10/3⌋)`. -/
theorem grid_tile_bounds_formula_witness :
    (gridTileBounds 10 10 3 1 0 0 0).2.2.1 =
      min ((10 : ℕ) : ℤ)
        ⌊(((0 : ℕ) : ℚ) + 1) * (((10 : ℕ) : ℚ) / ((3 : ℕ) : ℚ)) +
          (((10 : ℕ) : ℚ) / ((3 : ℕ) : ℚ)) * 0⌋ := by
  rw [grid_tile_bounds_formula 10 10 3 1 0 0 0 (by decide) (by decide)
    (by decide)]
  rfl

end Schemati

namespace Schemati

/-! ### Fixed-size-mode lemmas -/

theorem pyRangeLen_mul_lt (stop s k : ℕ) (hs : 1 ≤ s)
    (hk : k < pyRangeLen stop s) : k * s < stop := by
  unfold pyRangeLen at hk
  rcases Nat.eq_zero_or_pos stop with h0 | h0
  · subst h0
    have : (0 + s - 1) / s = 0 := Nat.div_eq_of_lt (by omega)
    omega
  · have h1 : k + 1 ≤ (stop + s - 1) / s := hk
    have h2 : (k + 1) * s ≤ stop + s - 1 :=
      (Nat.le_div_iff_mul_le (by omega)).mp h1
    have h3 : (k + 1) * s = k * s + s := by ring
    omega

theorem lt_pyRangeLen_of_lt (stop s px : ℕ) (hs : 1 ≤ s) (hpx : px < stop) :
    px / s < pyRangeLen stop s := by
  unfold pyRangeLen
  have h1 : px / s * s ≤ px := Nat.div_mul_le_self px s
  have hmul : (px / s + 1) * s = px / s * s + s := by ring
  have h2 : (px / s + 1) * s ≤ stop + s - 1 := by omega
  have h3 : px / s + 1 ≤ (stop + s - 1) / s :=
    (Nat.le_div_iff_mul_le (by omega)).mpr h2
  omega

theorem pyRangeNat_of_pos (stop : ℕ) (step : ℤ) (h : 0 < step) :
    pyRangeNat stop step =
      .ok ((List.range (pyRangeLen stop step.toNat)).map
        (fun (k : ℕ) => ((k : ℤ) * step))) := by
  unfold pyRangeNat
  rw [if_neg (by omega), if_neg (by omega)]

theorem mem_pyRangeNat (stop : ℕ) (step : ℤ) (xs : List ℤ) (x : ℤ)
    (h : pyRangeNat stop step = .ok xs) (hx : x ∈ xs) :
    0 ≤ x ∧ x < (stop : ℤ) := by
  unfold pyRangeNat at h
  split at h
  · exact absurd h (by simp)
  · split at h
    · rename_i h1 h2
      simp only [Except.ok.injEq] at h
      subst h
      exact absurd hx (List.not_mem_nil x)
    · rename_i h1 h2
      have hpos : 0 < step := by omega
      simp only [Except.ok.injEq] at h
      subst h
      rcases List.mem_map.mp hx with ⟨k, hk, heq⟩
      have hk2 := List.mem_range.mp hk
      have hlt : k * step.toNat < stop :=
        pyRangeLen_mul_lt stop step.toNat k (by omega) hk2
      have hx0 : 0 ≤ (k : ℤ) * step := by positivity
      have hxlt : (k : ℤ) * step < (stop : ℤ) := by
        have hcast : ((k * step.toNat : ℕ) : ℤ) < (stop : ℤ) := by
          exact_mod_cast hlt
        push_cast at hcast
        rw [Int.toNat_of_nonneg hpos.le] at hcast
        exact hcast
      rw [← heq]
      exact ⟨hx0, hxlt⟩

/-- A fragment produced by the fixed-size loop body, at an in-range anchor
`(y, x)` and with positive tile dimensions, has
`bbox = [x, y, min(x+tw, W), min(y+th, H)]`, which satisfies the bbox
invariant. -/
theorem fixed_tile_step_bbox (img : Image) (tw th : ℕ) (thr : ℚ) (y x : ℤ)
    (f : Fragment) (htw : 1 ≤ tw) (hth : 1 ≤ th)
    (hx0 : 0 ≤ x) (hxW : x < (img.width : ℤ))
    (hy0 : 0 ≤ y) (hyH : y < (img.height : ℤ))
    (h : fixed_tile_step img tw th thr y x = some f) :
    f.bbox = [x, y, min (x + (tw : ℤ)) (img.width : ℤ),
      min (y + (th : ℤ)) (img.height : ℤ)] ∧
    0 ≤ x ∧ x < min (x + (tw : ℤ)) (img.width : ℤ) ∧
    min (x + (tw : ℤ)) (img.width : ℤ) ≤ (img.width : ℤ) ∧
    0 ≤ y ∧ y < min (y + (th : ℤ)) (img.height : ℤ) ∧
    min (y + (th : ℤ)) (img.height : ℤ) ≤ (img.height : ℤ) := by
  have hbbox : f.bbox = [x, y, min (x + (tw : ℤ)) (img.width : ℤ),
      min (y + (th : ℤ)) (img.height : ℤ)] := by
    simp only [fixed_tile_step] at h
    split at h
    · exact absurd h (by simp)
    · split at h
      · exact absurd h (by simp)
      · rw [← Option.some_inj.mp h]
  refine ⟨hbbox, hx0, ?_, min_le_right _ _, hy0, ?_, min_le_right _ _⟩
  · apply lt_min (by omega) hxW
  · apply lt_min (by omega) hyH

theorem create_fixed_size_tiles_def (img : Image) (tw th : ℕ)
    (ov thr : ℚ) :
    create_fixed_size_tiles img tw th ov thr =
      (match pyRangeNat img.height (pyInt ((th : ℚ) * (1 - ov))),
             pyRangeNat img.width (pyInt ((tw : ℚ) * (1 - ov))) with
       | .error _, _ => .error ()
       | .ok ys, .error _ => if ys.isEmpty then .ok [] else .error ()
       | .ok ys, .ok xs =>
         .ok (ys.flatMap (fun y =>
           xs.filterMap (fixed_tile_step img tw th thr y)))) := rfl

theorem create_fixed_size_tiles_ok_of (img : Image) (tw th : ℕ)
    (ov thr : ℚ) (ys xs : List ℤ)
    (hys : pyRangeNat img.height (pyInt ((th : ℚ) * (1 - ov))) = .ok ys)
    (hxs : pyRangeNat img.width (pyInt ((tw : ℚ) * (1 - ov))) = .ok xs) :
    create_fixed_size_tiles img tw th ov thr =
      .ok (ys.flatMap (fun y =>
        xs.filterMap (fixed_tile_step img tw th thr y))) := by
  rw [create_fixed_size_tiles_def, hys, hxs]

/-- Inversion for a successful fixed-size tiling run: either the image has
zero height (and the result is empty), or both ranges were built and the
result is the double loop over them. -/
theorem create_fixed_size_tiles_ok (img : Image) (tw th : ℕ) (ov thr : ℚ)
    (l : List Fragment)
    (h : create_fixed_size_tiles img tw th ov thr = .ok l) :
    (∃ ys, pyRangeNat img.height (pyInt ((th : ℚ) * (1 - ov))) = .ok ys ∧
      ys = [] ∧ l = []) ∨
    (∃ ys xs, pyRangeNat img.height (pyInt ((th : ℚ) * (1 - ov))) = .ok ys ∧
      pyRangeNat img.width (pyInt ((tw : ℚ) * (1 - ov))) = .ok xs ∧
      l = ys.flatMap (fun y =>
        xs.filterMap (fixed_tile_step img tw th thr y))) := by
  rw [create_fixed_size_tiles_def] at h
  rcases hys : pyRangeNat img.height (pyInt ((th : ℚ) * (1 - ov))) with u | ys
  · rw [hys] at h
    exact Except.noConfusion h
  · rcases hxs : pyRangeNat img.width (pyInt ((tw : ℚ) * (1 - ov))) with v | xs
    · rw [hys, hxs] at h
      by_cases hemp : ys.isEmpty
      · left
        refine ⟨ys, rfl, List.isEmpty_iff.mp hemp, ?_⟩
        have h2 : (if ys.isEmpty then (Except.ok [] : Except Unit (List Fragment))
            else .error ()) = .ok l := h
        rw [if_pos hemp] at h2
        injection h2 with h3
        exact h3.symm
      · exfalso
        have h2 : (if ys.isEmpty then (Except.ok [] : Except Unit (List Fragment))
            else .error ()) = .ok l := h
        rw [if_neg hemp] at h2
        exact Except.noConfusion h2
    · rw [hys, hxs] at h
      right
      refine ⟨ys, xs, rfl, rfl, ?_⟩
      have h2 : (Except.ok (ys.flatMap (fun y =>
          xs.filterMap (fixed_tile_step img tw th thr y))) :
            Except Unit (List Fragment)) = .ok l := h
      injection h2 with h3
      exact h3.symm

/-- Every fragment of a fixed-size tiling run comes from the loop body at an
in-range anchor. -/
theorem mem_create_fixed_size_tiles (img : Image) (tw th : ℕ) (ov thr : ℚ)
    (l : List Fragment) (f : Fragment)
    (h : create_fixed_size_tiles img tw th ov thr = .ok l) (hf : f ∈ l) :
    ∃ y x : ℤ, 0 ≤ x ∧ x < (img.width : ℤ) ∧ 0 ≤ y ∧ y < (img.height : ℤ) ∧
      fixed_tile_step img tw th thr y x = some f := by
  rcases create_fixed_size_tiles_ok img tw th ov thr l h with
    ⟨ys, hys, hemp, hl⟩ | ⟨ys, xs, hys, hxs, hl⟩
  · subst hl
    exact absurd hf (List.not_mem_nil f)
  · subst hl
    rcases List.mem_flatMap.mp hf with ⟨y, hy, hmem⟩
    rcases List.mem_filterMap.mp hmem with ⟨x, hx, hstep⟩
    have hyb := mem_pyRangeNat img.height _ ys y hys hy
    have hxb := mem_pyRangeNat img.width _ xs x hxs hx
    exact ⟨y, x, hxb.1, hxb.2, hyb.1, hyb.2, hstep⟩

end Schemati

namespace Schemati

/-! ### C3: bbox invariant for every returned fragment -/

/-- Claim C3: in both tiling modes (with the documented positive tile sizes
in fixed-size mode), every fragment returned by `tile_page` has
`bbox = [x1, y1, x2, y2]` with `0 ≤ x1 < x2 ≤ width` and
`0 ≤ y1 < y2 ≤ height` of the decoded page image. -/
theorem tile_page_bbox_invariant (img : Image) (ts : Option (ℕ × ℕ))
    (ov thr : ℚ) (nh nv : ℕ) (frags : List Fragment) (f : Fragment)
    (hts : ∀ tw th, ts = some (tw, th) → 1 ≤ tw ∧ 1 ≤ th)
    (h : tile_page (some img) ts ov thr nh nv = .ok frags)
    (hf : f ∈ frags) :
    f.bbox.length = 4 ∧
    0 ≤ fragX1 f ∧ fragX1 f < fragX2 f ∧ fragX2 f ≤ (img.width : ℤ) ∧
    0 ≤ fragY1 f ∧ fragY1 f < fragY2 f ∧ fragY2 f ≤ (img.height : ℤ) := by
  rcases ts with _ | ⟨tw, th⟩
  · have hgrid : frags = create_grid_tiles img nh nv ov thr := by
      simp only [tile_page] at h
      split at h
      · exact Except.noConfusion h
      · injection h with h2
        exact h2.symm
    subst hgrid
    rcases mem_create_grid_tiles img nh nv ov thr f hf with
      ⟨row, col, _, _, hstep⟩
    rcases grid_tile_step_bbox img nh nv ov thr row col f hstep with
      ⟨x1, y1, x2, y2, hbbox, h1, h2, h3, h4, h5, h6⟩
    simp only [fragX1, fragY1, fragX2, fragY2, hbbox, List.getD_cons_zero,
      List.getD_cons_succ, List.length_cons, List.length_nil]
    exact ⟨trivial, h1, h2, h3, h4, h5, h6⟩
  · have hfix : create_fixed_size_tiles img tw th ov thr = .ok frags := h
    rcases hts tw th rfl with ⟨htw, hth⟩
    rcases mem_create_fixed_size_tiles img tw th ov thr frags f hfix hf with
      ⟨y, x, hx0, hxW, hy0, hyH, hstep⟩
    rcases fixed_tile_step_bbox img tw th thr y x f htw hth hx0 hxW hy0 hyH
      hstep with ⟨hbbox, h1, h2, h3, h4, h5, h6⟩
    simp only [fragX1, fragY1, fragX2, fragY2, hbbox, List.getD_cons_zero,
      List.getD_cons_succ, List.length_cons, List.length_nil]
    exact ⟨trivial, h1, h2, h3, h4, h5, h6⟩

/-- Witness for C3 on a concrete 1×1 image in fixed-size mode. -/
theorem tile_page_bbox_invariant_witness :
    (⟨[0, 0, 1, 1], [[255]]⟩ : Fragment).bbox.length = 4 ∧
    0 ≤ fragX1 ⟨[0, 0, 1, 1], [[255]]⟩ ∧
    fragX1 ⟨[0, 0, 1, 1], [[255]]⟩ < fragX2 ⟨[0, 0, 1, 1], [[255]]⟩ ∧
    fragX2 ⟨[0, 0, 1, 1], [[255]]⟩ ≤ ((Image.mk 1 1 (fun _ _ => 255)).width : ℤ) ∧
    0 ≤ fragY1 ⟨[0, 0, 1, 1], [[255]]⟩ ∧
    fragY1 ⟨[0, 0, 1, 1], [[255]]⟩ < fragY2 ⟨[0, 0, 1, 1], [[255]]⟩ ∧
    fragY2 ⟨[0, 0, 1, 1], [[255]]⟩ ≤ ((Image.mk 1 1 (fun _ _ => 255)).height : ℤ) := by
  have hpy : pyInt (((1 : ℕ) : ℚ) * (1 - 0)) = 1 := by norm_num [pyInt]
  have hrun : tile_page (some ⟨1, 1, fun _ _ => 255⟩) (some (1, 1)) 0 0 1 1 =
      .ok [⟨[0, 0, 1, 1], [[255]]⟩] := by
    show create_fixed_size_tiles ⟨1, 1, fun _ _ => 255⟩ 1 1 0 0 =
      .ok [⟨[0, 0, 1, 1], [[255]]⟩]
    rw [create_fixed_size_tiles_def, hpy]
    rfl
  exact tile_page_bbox_invariant ⟨1, 1, fun _ _ => 255⟩ (some (1, 1)) 0 0 1 1
    [⟨[0, 0, 1, 1], [[255]]⟩] ⟨[0, 0, 1, 1], [[255]]⟩
    (by intro tw th h2; simp only [Option.some_inj, Prod.mk.injEq] at h2; omega)
    hrun (by simp)

end Schemati

namespace Schemati

/-! ### C5: undersized-edge-tile skip is coupled to the threshold -/

theorem fixed_tile_step_thr_zero (img : Image) (tw th : ℕ) (y x : ℤ) :
    fixed_tile_step img tw th 0 y x =
      some ⟨[x, y, min (x + (tw : ℤ)) (img.width : ℤ),
             min (y + (th : ℤ)) (img.height : ℤ)],
        extractRegion img x y (min (x + (tw : ℤ)) (img.width : ℤ))
          (min (y + (th : ℤ)) (img.height : ℤ))⟩ := by
  simp only [fixed_tile_step]
  rw [if_neg (fun hc => absurd hc.1 (lt_irrefl 0)),
    if_neg (fun hc => absurd hc.1 (lt_irrefl 0))]

theorem fixed_tile_step_some_not_undersized (img : Image) (tw th : ℕ)
    (thr : ℚ) (y x : ℤ) (f : Fragment) (hthr : 0 < thr)
    (h : fixed_tile_step img tw th thr y x = some f) :
    f.bbox = [x, y, min (x + (tw : ℤ)) (img.width : ℤ),
      min (y + (th : ℤ)) (img.height : ℤ)] ∧
    ((tw / 2 : ℕ) : ℤ) ≤ min (x + (tw : ℤ)) (img.width : ℤ) - x ∧
    ((th / 2 : ℕ) : ℤ) ≤ min (y + (th : ℤ)) (img.height : ℤ) - y := by
  simp only [fixed_tile_step] at h
  split at h
  · exact absurd h (by simp)
  · rename_i hcond
    simp only [not_and, not_or, not_lt] at hcond
    split at h
    · exact absurd h (by simp)
    · exact ⟨(Option.some_inj.mp h).symm ▸ rfl, (hcond hthr).1, (hcond hthr).2⟩

/-- Claim C5: in fixed-size mode a candidate tile whose clipped width or
height falls below half the requested tile size (Python floor halves) is
discarded exactly when `complexity_threshold > 0`: with a positive
threshold no undersized fragment appears in the output, and with threshold
`0` every candidate anchor `(y, x)` of the stepped ranges contributes its
fragment (so coverage of the image is complete). -/
theorem fixed_mode_undersized_skip (img : Image) (tw th : ℕ) (ov thr : ℚ)
    (l : List Fragment) (_htw : 1 ≤ tw) (_hth : 1 ≤ th)
    (h : create_fixed_size_tiles img tw th ov thr = .ok l) :
    (0 < thr → ∀ f ∈ l,
      ((tw / 2 : ℕ) : ℤ) ≤ fragX2 f - fragX1 f ∧
      ((th / 2 : ℕ) : ℤ) ≤ fragY2 f - fragY1 f) ∧
    (thr = 0 → ∀ ys xs : List ℤ, ∀ y x : ℤ,
      pyRangeNat img.height (pyInt ((th : ℚ) * (1 - ov))) = .ok ys →
      pyRangeNat img.width (pyInt ((tw : ℚ) * (1 - ov))) = .ok xs →
      y ∈ ys → x ∈ xs →
      (⟨[x, y, min (x + (tw : ℤ)) (img.width : ℤ),
         min (y + (th : ℤ)) (img.height : ℤ)],
        extractRegion img x y (min (x + (tw : ℤ)) (img.width : ℤ))
          (min (y + (th : ℤ)) (img.height : ℤ))⟩ : Fragment) ∈ l) := by
  constructor
  · intro hthr f hf
    rcases mem_create_fixed_size_tiles img tw th ov thr l f h hf with
      ⟨y, x, _, _, _, _, hstep⟩
    rcases fixed_tile_step_some_not_undersized img tw th thr y x f hthr hstep
      with ⟨hbbox, h1, h2⟩
    simp only [fragX1, fragY1, fragX2, fragY2, hbbox, List.getD_cons_zero,
      List.getD_cons_succ]
    constructor
    · omega
    · omega
  · intro hthr ys xs y x hys hxs hy hx
    subst hthr
    rcases create_fixed_size_tiles_ok img tw th ov 0 l h with
      ⟨ys2, hys2, hemp, hl⟩ | ⟨ys2, xs2, hys2, hxs2, hl⟩
    · rw [hys] at hys2
      injection hys2 with h2
      subst hemp
      rw [h2] at hy
      exact absurd hy (List.not_mem_nil y)
    · rw [hys] at hys2
      injection hys2 with h2
      rw [hxs] at hxs2
      injection hxs2 with h3
      subst hl
      subst h2
      subst h3
      exact List.mem_flatMap.mpr ⟨y, hy,
        List.mem_filterMap.mpr ⟨x, hx, fixed_tile_step_thr_zero img tw th y x⟩⟩

/-- Witness for C5 at a 2×2 white image with 2×2 tiles, no overlap,
threshold `0`: the single candidate at `(0,0)` is present. -/
theorem fixed_mode_undersized_skip_witness :
    (⟨[0, 0, min ((0 : ℤ) + ((2 : ℕ) : ℤ)) (((Image.mk 2 2 (fun _ _ => 255)).width : ℤ)),
       min ((0 : ℤ) + ((2 : ℕ) : ℤ)) (((Image.mk 2 2 (fun _ _ => 255)).height : ℤ))],
      extractRegion (Image.mk 2 2 (fun _ _ => 255)) 0 0
        (min ((0 : ℤ) + ((2 : ℕ) : ℤ)) (((Image.mk 2 2 (fun _ _ => 255)).width : ℤ)))
        (min ((0 : ℤ) + ((2 : ℕ) : ℤ)) (((Image.mk 2 2 (fun _ _ => 255)).height : ℤ)))⟩ :
      Fragment) ∈
      [(⟨[0, 0, 2, 2], [[255, 255], [255, 255]]⟩ : Fragment)] := by
  have hpy : pyInt (((2 : ℕ) : ℚ) * (1 - 0)) = 2 := by norm_num [pyInt]
  have hrange : pyRangeNat (2 : ℕ) (pyInt (((2 : ℕ) : ℚ) * (1 - 0))) =
      .ok [(0 : ℤ)] := by
    rw [hpy]
    rfl
  have hrun : create_fixed_size_tiles ⟨2, 2, fun _ _ => 255⟩ 2 2 0 0 =
      .ok [⟨[0, 0, 2, 2], [[255, 255], [255, 255]]⟩] := by
    rw [create_fixed_size_tiles_def, hpy]
    rfl
  exact (fixed_mode_undersized_skip ⟨2, 2, fun _ _ => 255⟩ 2 2 0 0
    [⟨[0, 0, 2, 2], [[255, 255], [255, 255]]⟩] (by decide) (by decide)
    hrun).2 rfl [0] [0] 0 0 hrange hrange (by simp) (by simp)

end Schemati

namespace Schemati

/-! ### C7: overlap monotonicity in fixed-size mode -/

/-- Loop body with the clipped corners precomputed and a positive
threshold. -/
theorem fixed_tile_step_eval (img : Image) (tw th : ℕ) (thr : ℚ)
    (y x x2 y2 : ℤ)
    (hx2 : min (x + (tw : ℤ)) (img.width : ℤ) = x2)
    (hy2 : min (y + (th : ℤ)) (img.height : ℤ) = y2)
    (hthr : 0 < thr) :
    fixed_tile_step img tw th thr y x =
      (if x2 - x < ((tw / 2 : ℕ) : ℤ) ∨ y2 - y < ((th / 2 : ℕ) : ℤ) then none
       else if calculate_complexity (some (extractRegion img x y x2 y2)) < thr
         then none
       else some ⟨[x, y, x2, y2], extractRegion img x y x2 y2⟩) := by
  simp only [fixed_tile_step, hx2, hy2, eq_true hthr, true_and]

theorem cimg_ccA : calculate_complexity (some (extractRegion cimg 0 0 4 3)) =
    1 / 12 := by
  have hex : extractRegion cimg 0 0 4 3 =
      [[255, 255, 255, 255], [255, 255, 255, 255], [255, 0, 255, 255]] := rfl
  rw [hex]
  norm_num [calculate_complexity, regionSize, List.countP_cons, List.countP_nil]

theorem cimg_ccB : calculate_complexity (some (extractRegion cimg 4 0 6 3)) =
    1 / 3 := by
  have hex : extractRegion cimg 4 0 6 3 =
      [[255, 255], [255, 255], [0, 0]] := rfl
  rw [hex]
  norm_num [calculate_complexity, regionSize, List.countP_cons, List.countP_nil]

theorem cimg_ccC : calculate_complexity (some (extractRegion cimg 3 0 6 3)) =
    2 / 9 := by
  have hex : extractRegion cimg 3 0 6 3 =
      [[255, 255, 255], [255, 255, 255], [255, 0, 0]] := rfl
  rw [hex]
  norm_num [calculate_complexity, regionSize, List.countP_cons, List.countP_nil]

theorem cimg_stepA : fixed_tile_step cimg 4 4 (3 / 10) 0 0 = none := by
  rw [fixed_tile_step_eval cimg 4 4 (3 / 10) 0 0 4 3 (by decide) (by decide)
    (by norm_num)]
  rw [if_neg (by decide), if_pos (by rw [cimg_ccA]; norm_num)]

theorem cimg_stepB : fixed_tile_step cimg 4 4 (3 / 10) 0 4 =
    some ⟨[4, 0, 6, 3], extractRegion cimg 4 0 6 3⟩ := by
  rw [fixed_tile_step_eval cimg 4 4 (3 / 10) 0 4 6 3 (by decide) (by decide)
    (by norm_num)]
  rw [if_neg (by decide), if_neg (by rw [cimg_ccB]; norm_num)]

theorem cimg_stepC : fixed_tile_step cimg 4 4 (3 / 10) 0 3 = none := by
  rw [fixed_tile_step_eval cimg 4 4 (3 / 10) 0 3 6 3 (by decide) (by decide)
    (by norm_num)]
  rw [if_neg (by decide), if_pos (by rw [cimg_ccC]; norm_num)]

/-- Claim C7 as stated is false: on `cimg` with 4×4 tiles and
`complexity_threshold = 0.3`, raising `overlap_ratio` from `0` to `0.1`
drops the fragment count from 1 to 0 (the overlapped anchors realign the
tiles so that every tile falls below the complexity threshold). -/
theorem fixed_overlap_monotone_counterexample :
    create_fixed_size_tiles cimg 4 4 0 (3 / 10) =
      .ok [⟨[4, 0, 6, 3], extractRegion cimg 4 0 6 3⟩] ∧
    create_fixed_size_tiles cimg 4 4 (1 / 10) (3 / 10) = .ok [] ∧
    ((create_fixed_size_tiles cimg 4 4 (1 / 10) (3 / 10)).toOption.getD
        []).length <
      ((create_fixed_size_tiles cimg 4 4 0 (3 / 10)).toOption.getD
        []).length := by
  have hpw : pyInt (((4 : ℕ) : ℚ) * (1 - 0)) = 4 := by norm_num [pyInt]
  have hpw1 : pyInt (((4 : ℕ) : ℚ) * (1 - 1 / 10)) = 3 := by norm_num [pyInt]
  have hys0 : pyRangeNat cimg.height (pyInt (((4 : ℕ) : ℚ) * (1 - 0))) =
      .ok [(0 : ℤ)] := by rw [hpw]; rfl
  have hxs0 : pyRangeNat cimg.width (pyInt (((4 : ℕ) : ℚ) * (1 - 0))) =
      .ok [(0 : ℤ), 4] := by rw [hpw]; rfl
  have hys1 : pyRangeNat cimg.height (pyInt (((4 : ℕ) : ℚ) * (1 - 1 / 10))) =
      .ok [(0 : ℤ)] := by rw [hpw1]; rfl
  have hxs1 : pyRangeNat cimg.width (pyInt (((4 : ℕ) : ℚ) * (1 - 1 / 10))) =
      .ok [(0 : ℤ), 3] := by rw [hpw1]; rfl
  have hrun0 : create_fixed_size_tiles cimg 4 4 0 (3 / 10) =
      .ok [⟨[4, 0, 6, 3], extractRegion cimg 4 0 6 3⟩] := by
    rw [create_fixed_size_tiles_ok_of cimg 4 4 0 (3 / 10) [0] [0, 4] hys0 hxs0]
    simp only [List.flatMap_cons, List.flatMap_nil, List.filterMap_cons,
      cimg_stepA, cimg_stepB, List.filterMap_nil, List.append_nil]
  have hrun1 : create_fixed_size_tiles cimg 4 4 (1 / 10) (3 / 10) = .ok [] := by
    rw [create_fixed_size_tiles_ok_of cimg 4 4 (1 / 10) (3 / 10) [0] [0, 3]
      hys1 hxs1]
    simp only [List.flatMap_cons, List.flatMap_nil, List.filterMap_cons,
      cimg_stepA, cimg_stepC, List.filterMap_nil, List.append_nil]
  refine ⟨hrun0, hrun1, ?_⟩
  rw [hrun0, hrun1]
  decide

end Schemati

namespace Schemati

theorem pyRangeLen_antitone (stop s s2 : ℕ) (hs2 : 1 ≤ s2) (hle : s2 ≤ s) :
    pyRangeLen stop s ≤ pyRangeLen stop s2 := by
  unfold pyRangeLen
  apply (Nat.le_div_iff_mul_le (by omega)).mpr
  have h1 : (stop + s - 1) / s * s ≤ stop + s - 1 := Nat.div_mul_le_self _ _
  rcases Nat.eq_zero_or_pos ((stop + s - 1) / s) with h0 | h0
  · rw [h0]
    omega
  · have hmul : (stop + s - 1) / s * s =
        (stop + s - 1) / s * s2 + (stop + s - 1) / s * (s - s2) := by
      rw [← Nat.mul_add]
      congr 1
      omega
    have hks : s - s2 ≤ (stop + s - 1) / s * (s - s2) :=
      Nat.le_mul_of_pos_left _ h0
    omega

theorem pyInt_mul_one_sub_le (tw : ℕ) (ov : ℚ) (hov : 0 ≤ ov) :
    pyInt ((tw : ℚ) * (1 - ov)) ≤ (tw : ℤ) := by
  rcases le_or_lt 0 ((tw : ℚ) * (1 - ov)) with h | h
  · rw [pyInt_of_nonneg h]
    calc ⌊(tw : ℚ) * (1 - ov)⌋ ≤ ⌊(tw : ℚ)⌋ := by
          apply Int.floor_le_floor
          nlinarith [Nat.cast_nonneg (α := ℚ) tw]
      _ = (tw : ℤ) := Int.floor_natCast tw
  · have h2 := pyInt_nonpos h.le
    omega

/-- Fragment count of a fixed-size run with threshold `0`: no candidate is
skipped, so the count is the product of the two range lengths. -/
theorem create_fixed_thr_zero_length (img : Image) (tw th : ℕ) (ov : ℚ)
    (l : List Fragment) (sw sh : ℤ)
    (hswdef : pyInt ((tw : ℚ) * (1 - ov)) = sw)
    (hshdef : pyInt ((th : ℚ) * (1 - ov)) = sh)
    (hsw : 1 ≤ sw) (hsh : 1 ≤ sh)
    (h : create_fixed_size_tiles img tw th ov 0 = .ok l) :
    l.length = pyRangeLen img.height sh.toNat * pyRangeLen img.width sw.toNat := by
  have hys : pyRangeNat img.height (pyInt ((th : ℚ) * (1 - ov))) =
      .ok ((List.range (pyRangeLen img.height sh.toNat)).map
        (fun (k : ℕ) => ((k : ℤ) * sh))) := by
    rw [hshdef]
    exact pyRangeNat_of_pos img.height sh (by omega)
  have hxs : pyRangeNat img.width (pyInt ((tw : ℚ) * (1 - ov))) =
      .ok ((List.range (pyRangeLen img.width sw.toNat)).map
        (fun (k : ℕ) => ((k : ℤ) * sw))) := by
    rw [hswdef]
    exact pyRangeNat_of_pos img.width sw (by omega)
  have hok := create_fixed_size_tiles_ok_of img tw th ov 0 _ _ hys hxs
  rw [h] at hok
  injection hok with h2
  rw [h2]
  rw [length_flatMap_const _ _
    ((List.range (pyRangeLen img.width sw.toNat)).map
      (fun (k : ℕ) => ((k : ℤ) * sw))).length]
  · rw [List.length_map, List.length_range, List.length_map, List.length_range]
  · intro y _
    rw [length_filterMap_of_isSome]
    intro x _
    rw [fixed_tile_step_thr_zero]
    rfl

/-- Claim C7, amended: in fixed-size mode with `complexity_threshold = 0`
and an overlap in `(0, 1)` whose computed steps `int(tile*(1-r))` stay at
least 1, raising the overlap from 0 never decreases the fragment count.
(The claim as stated fails both for positive thresholds — see the
counterexample — and when a step truncates to 0, which raises
`ValueError`.) -/
theorem fixed_overlap_monotone_amended (img : Image) (tw th : ℕ) (r : ℚ)
    (htw : 1 ≤ tw) (hth : 1 ≤ th) (hr0 : 0 < r) (_hr1 : r < 1)
    (hsw : 1 ≤ pyInt ((tw : ℚ) * (1 - r)))
    (hsh : 1 ≤ pyInt ((th : ℚ) * (1 - r)))
    (l0 lr : List Fragment)
    (h0 : create_fixed_size_tiles img tw th 0 0 = .ok l0)
    (hr : create_fixed_size_tiles img tw th r 0 = .ok lr) :
    l0.length ≤ lr.length := by
  have hpw0 : pyInt ((tw : ℚ) * (1 - 0)) = (tw : ℤ) := by
    rw [pyInt_of_nonneg (by positivity)]
    rw [show (tw : ℚ) * (1 - 0) = ((tw : ℕ) : ℚ) by ring]
    exact Int.floor_natCast tw
  have hph0 : pyInt ((th : ℚ) * (1 - 0)) = (th : ℤ) := by
    rw [pyInt_of_nonneg (by positivity)]
    rw [show (th : ℚ) * (1 - 0) = ((th : ℕ) : ℚ) by ring]
    exact Int.floor_natCast th
  have hlen0 := create_fixed_thr_zero_length img tw th 0 l0 (tw : ℤ) (th : ℤ)
    hpw0 hph0 (by omega) (by omega) h0
  have hlenr := create_fixed_thr_zero_length img tw th r lr
    (pyInt ((tw : ℚ) * (1 - r))) (pyInt ((th : ℚ) * (1 - r))) rfl rfl hsw hsh hr
  rw [hlen0, hlenr]
  have hswle := pyInt_mul_one_sub_le tw r hr0.le
  have hshle := pyInt_mul_one_sub_le th r hr0.le
  apply Nat.mul_le_mul
  · rw [Int.toNat_natCast]
    exact pyRangeLen_antitone img.height th _ (by omega) (by omega)
  · rw [Int.toNat_natCast]
    exact pyRangeLen_antitone img.width tw _ (by omega) (by omega)

/-- Witness for the amended C7: a 2×2 white image with 2×2 tiles has 1
fragment at overlap 0 and 4 fragments at overlap 1/2, and `1 ≤ 4`. -/
theorem fixed_overlap_monotone_amended_witness :
    ((create_fixed_size_tiles ⟨2, 2, fun _ _ => 255⟩ 2 2 0 0).toOption.getD
      []).length ≤
    ((create_fixed_size_tiles ⟨2, 2, fun _ _ => 255⟩ 2 2 (1 / 2) 0).toOption.getD
      []).length := by
  have hpy0 : pyInt (((2 : ℕ) : ℚ) * (1 - 0)) = 2 := by norm_num [pyInt]
  have hpyr : pyInt (((2 : ℕ) : ℚ) * (1 - 1 / 2)) = 1 := by norm_num [pyInt]
  have hrun0 : create_fixed_size_tiles ⟨2, 2, fun _ _ => 255⟩ 2 2 0 0 =
      .ok ((create_fixed_size_tiles ⟨2, 2, fun _ _ => 255⟩ 2 2 0
        0).toOption.getD []) := by
    rw [create_fixed_size_tiles_def, hpy0]
    rfl
  have hrunr : create_fixed_size_tiles ⟨2, 2, fun _ _ => 255⟩ 2 2 (1 / 2) 0 =
      .ok ((create_fixed_size_tiles ⟨2, 2, fun _ _ => 255⟩ 2 2 (1 / 2)
        0).toOption.getD []) := by
    rw [create_fixed_size_tiles_def, hpyr]
    rfl
  exact fixed_overlap_monotone_amended ⟨2, 2, fun _ _ => 255⟩ 2 2 (1 / 2)
    (by decide) (by decide) (by norm_num) (by norm_num)
    (by rw [hpyr]) (by rw [hpyr]) _ _ hrun0 hrunr

end Schemati

namespace Schemati

/-! ### C6: failure semantics of tile_page -/

/-- Claim C6, amended: an undecodable page always yields `.ok []` (never an
exception) for *every* parameter choice — decoding at the top of
`tile_page` precedes any step computation, so the side conditions below
only concern decodable pages; a decodable page never raises provided the
grid counts are at least 1 in grid mode and the computed steps
`int(tile * (1 - overlap))` are at least 1 in fixed-size mode.  (As stated,
the claim fails: see the counterexample, where a decodable page with a
positive tile size and an in-range overlap raises `ValueError` because the
step truncates to 0.) -/
theorem tile_page_never_raises_amended (decoded : Option Image)
    (ts : Option (ℕ × ℕ)) (ov thr : ℚ) (nh nv : ℕ)
    (hgrid : ∀ img : Image, decoded = some img → ts = none →
      1 ≤ nh ∧ 1 ≤ nv)
    (hfix : ∀ (img : Image) (tw th : ℕ), decoded = some img →
      ts = some (tw, th) →
      1 ≤ pyInt ((tw : ℚ) * (1 - ov)) ∧ 1 ≤ pyInt ((th : ℚ) * (1 - ov))) :
    (decoded = none → tile_page decoded ts ov thr nh nv = .ok []) ∧
    tile_page decoded ts ov thr nh nv ≠ .error () := by
  rcases decoded with _ | img
  · exact ⟨fun _ => rfl, by simp [tile_page]⟩
  · refine ⟨fun hcontr => Option.noConfusion hcontr, ?_⟩
    rcases ts with _ | ⟨tw, th⟩
    · obtain ⟨h1, h2⟩ := hgrid img rfl rfl
      simp only [tile_page]
      rw [if_neg (by omega)]
      exact fun hcontr => Except.noConfusion hcontr
    · obtain ⟨h1, h2⟩ := hfix img tw th rfl rfl
      show create_fixed_size_tiles img tw th ov thr ≠ .error ()
      rw [create_fixed_size_tiles_ok_of img tw th ov thr _ _
        (pyRangeNat_of_pos img.height _ (by omega))
        (pyRangeNat_of_pos img.width _ (by omega))]
      exact fun hcontr => Except.noConfusion hcontr

/-- Claim C6 as stated is false: with a decodable 1×1 page, tile size
`(1, 1)` and `overlap_ratio = 1/2` (all within the documented ranges), the
computed step is `int(1 * 0.5) = 0` and `range(0, height, 0)` raises
`ValueError`, so `tile_page` raises instead of returning a list. -/
theorem tile_page_raises_counterexample :
    tile_page (some ⟨1, 1, fun _ _ => 255⟩) (some (1, 1)) (1 / 2) 0 1 1 =
      .error () := by
  have hpy : pyInt (((1 : ℕ) : ℚ) * (1 - 1 / 2)) = 0 := by norm_num [pyInt]
  show create_fixed_size_tiles ⟨1, 1, fun _ _ => 255⟩ 1 1 (1 / 2) 0 =
    .error ()
  rw [create_fixed_size_tiles_def, hpy]
  rfl

/-- Witness for the amended C6, exercising both halves non-vacuously: an
undecodable page returns `[]` even for the step-0 parameters of the
counterexample (tile `(1, 1)`, overlap `1/2`), and a decodable 1×1 page in
fixed-size mode with tile `(2, 2)` and zero overlap does not raise. -/
theorem tile_page_never_raises_amended_witness :
    tile_page none (some (1, 1)) (1 / 2) 0 1 1 = .ok [] ∧
    tile_page (some ⟨1, 1, fun _ _ => 255⟩) (some (2, 2)) 0 0 1 1 ≠
      .error () :=
  ⟨(tile_page_never_raises_amended none (some (1, 1)) (1 / 2) 0 1 1
      (by intro img h2; exact Option.noConfusion h2)
      (by intro img tw th h2; exact Option.noConfusion h2)).1 rfl,
   (tile_page_never_raises_amended (some ⟨1, 1, fun _ _ => 255⟩)
      (some (2, 2)) 0 0 1 1
      (by intro img h2 h3; exact Option.noConfusion h3)
      (by
        intro img tw th h2 h3
        simp only [Option.some_inj, Prod.mk.injEq] at h3
        obtain ⟨h4, h5⟩ := h3
        subst h4
        subst h5
        constructor <;> norm_num [pyInt])).2⟩

end Schemati
